import Mathlib

/-!
Verification of `artifactory/commands/npm/common.go`.

The Go source is shallowly embedded below.  Go strings (`string`, `[]byte`) are
modelled as Lean `String`; the string helpers from Go's `strings` package that
the source uses (`Contains`, `SplitN(s, "=", 2)`, `TrimSpace`, `HasPrefix`,
`HasSuffix`, `Join`) are re-implemented by structural recursion on the
character list so that every definition is executable and kernel-reducible.
`strings.TrimSpace` is modelled on the ASCII whitespace characters Go strips
(space, tab, newline, vertical tab, form feed, carriage return); the
non-ASCII Unicode space code points are out of scope for these claims.

Side effects (the external `npm config ls` fetch, file removal and file
write) are modelled by passing their results in as explicit values; a Go
`error` is an `Option String` (`none` = nil error).
-/

/-- Go `strings.HasPrefix`-style check on character lists: first argument is
the pattern, second the list searched. -/
def startsWithCL : List Char → List Char → Bool
  | [], _ => true
  | _ :: _, [] => false
  | a :: as, b :: bs => a == b && startsWithCL as bs

/-- Substring containment on character lists (pattern second), matching the
semantics of Go `strings.Contains` (the empty pattern is contained in
everything). -/
def containsCL : List Char → List Char → Bool
  | [], sub => sub.isEmpty
  | a :: rest, sub => startsWithCL sub (a :: rest) || containsCL rest sub

/-- Go `strings.Contains(s, sub)`. -/
def goContains (s sub : String) : Bool := containsCL s.data sub.data

/-- Go `strings.HasPrefix(s, pat)`. -/
def goStartsWith (s pat : String) : Bool := startsWithCL pat.data s.data

/-- Go `strings.HasSuffix(s, pat)`. -/
def goEndsWith (s pat : String) : Bool := startsWithCL pat.data.reverse s.data.reverse

/-- Whitespace characters stripped by Go `strings.TrimSpace` (ASCII part). -/
def isGoSpace (c : Char) : Bool :=
  c == ' ' || c == '\t' || c == '\n' || c == '\x0b' || c == '\x0c' || c == '\r'

/-- Go `strings.TrimSpace` (ASCII whitespace). -/
def goTrim (s : String) : String :=
  ⟨((s.data.dropWhile isGoSpace).reverse.dropWhile isGoSpace).reverse⟩

/-- Split a character list at every occurrence of `c` (Go `strings.Split`). -/
def splitOnChar (c : Char) : List Char → List (List Char)
  | [] => [[]]
  | a :: as =>
    if a == c then [] :: splitOnChar c as
    else
      match splitOnChar c as with
      | [] => [[a]]
      | h :: t => (a :: h) :: t

/-- Split a character list at the first occurrence of `c`, if any. -/
def splitN2CL (c : Char) : List Char → Option (List Char × List Char)
  | [] => none
  | a :: as =>
    if a == c then some ([], as)
    else (splitN2CL c as).map (fun p => (a :: p.1, p.2))

/-- Go `strings.SplitN(s, "=", 2)`: the whole string when it holds no `=`,
otherwise the parts before and after the first `=`. -/
def goSplitN2 (s : String) : List String :=
  match splitN2CL '=' s.data with
  | none => [s]
  | some (l, r) => [⟨l⟩, ⟨r⟩]

/-- The lines handed out by `bufio.Scanner` over the configuration dump.
(The scanner yields no final empty token after a trailing newline, while this
split does; `prepareConfigData` skips empty lines, so the two agree on every
observable of the claims.  `\r` stripping and the scanner's token-size limit
are out of scope.) -/
def goLines (s : String) : List String := (splitOnChar '\n' s.data).map (fun l => ⟨l⟩)

/-- Go `strings.Join(l, "")`. -/
def goJoin : List String → String
  | [] => ""
  | s :: rest => s ++ goJoin rest

/-- Go `strconv.FormatBool`. -/
def strconvFormatBool (b : Bool) : String := if b then "true" else "false"

/-- The `build-info-go` `TypeRestriction` enumeration.  `DefaultRestriction` is
the zero value (the spec's `Unset`). -/
inductive TypeRestriction where
  | DefaultRestriction
  | All
  | DevOnly
  | ProdOnly
deriving DecidableEq, Repr

/-- The fields of `CommonArgs` that `prepareConfigData` and
`setTypeRestriction` read or write. -/
structure CommonArgs where
  jsonOutput : Bool
  registry : String
  npmAuth : String
  typeRestriction : TypeRestriction
deriving DecidableEq, Repr

/-- Method `(com *CommonArgs) setTypeRestriction(key, value)`, as a pure transition
on the `typeRestriction` field.  `omit` always wins; the legacy keys `only`
and `production` act only while the state is still `DefaultRestriction`. -/
def setTypeRestriction (t : TypeRestriction) (key value : String) : TypeRestriction :=
  if key = "omit" then
    if goContains value "dev" then .ProdOnly else .All
  else if t = .DefaultRestriction then
    if key = "only" then
      if goContains value "prod" then .ProdOnly
      else if goContains value "dev" then .DevOnly
      else t
    else if key = "production" then
      if goContains value "true" then .ProdOnly else t
    else t
  else t

/-- Method `(com *CommonArgs) restoreNpmrcAndError(err)`.  The restore function is
modelled by its result: `none` when `com.restoreNpmrcFunc()` returns nil,
`some restoreErr` when it fails.  Errors are their messages; the combined
message is the `errorutils.CheckErrorf("Two errors occurred:\n %s\n %s", ...)`
format applied to the two messages. -/
def restoreNpmrcAndError (restoreResult : Option String) (err : String) : String :=
  match restoreResult with
  | some restoreErr => "Two errors occurred:\n " ++ restoreErr ++ "\n " ++ err
  | none => err

/-- Modelled from the spec: `addArrayConfigs` is called by `prepareConfigData`
but defined in a file of the package that is not part of the given source.
Per the spec (§4.1 step 5), a bracket-delimited value is split on its internal
comma separators and each element is re-emitted as a repeated
`key = element` assignment. -/
def addArrayConfigs (configs : List String) (key value : String) : List String :=
  (splitOnChar ',' ((value.data.drop 1).dropLast)).foldl
    (fun acc v => acc ++ [key, " = ", ⟨v⟩, "\n"]) configs

/-- The accumulator of `prepareConfigData`'s scanning loop: the `filteredConf`
slice of output fragments and the `com.typeRestriction` field the loop
mutates through `setTypeRestriction`. -/
structure PrepareState where
  filteredConf : List String
  typeRestriction : TypeRestriction
deriving DecidableEq, Repr

/-- One iteration of `prepareConfigData`'s scanner loop on the line
`currOption`.  `isValidKey` is the allow-list predicate (defined outside the
given source; the spec's externally supplied `isRecognizedKey`). -/
def processLine (isValidKey : String → Bool) (registry : String)
    (st : PrepareState) (currOption : String) : PrepareState :=
  if currOption = "" then st
  else
    let splitOption := goSplitN2 currOption
    let key := goTrim (splitOption.headD "")
    if splitOption.length == 2 && isValidKey key then
      let value := goTrim (splitOption.getD 1 "")
      { filteredConf :=
          if goStartsWith value "[" && goEndsWith value "]" then
            addArrayConfigs st.filteredConf key value
          else
            st.filteredConf ++ [currOption, "\n"],
        typeRestriction := setTypeRestriction st.typeRestriction key value }
    else if goStartsWith (splitOption.headD "") "@" then
      { st with filteredConf := st.filteredConf ++ [splitOption.headD "", " = ", registry, "\n"] }
    else st

/-- Method `(com *CommonArgs) prepareConfigData(data)`: scans the configuration dump
line by line with `processLine`, then appends the synthesized `json`,
`registry` and credential entries.  Returns the joined output together with
the final `typeRestriction` field.  (The Go version can also return
`scanner.Err()`, which is always nil for an in-memory reader; no error case
remains in the model.) -/
def prepareConfigData (isValidKey : String → Bool) (com : CommonArgs) (data : String) :
    String × TypeRestriction :=
  let st := (goLines data).foldl (processLine isValidKey com.registry)
    { filteredConf := [], typeRestriction := com.typeRestriction }
  let filteredConf := st.filteredConf ++
    ["json = ", strconvFormatBool com.jsonOutput, "\n",
     "registry = ", com.registry, "\n", com.npmAuth]
  (goJoin filteredConf, st.typeRestriction)

/-- The (key, value) pair a line contributes to `setTypeRestriction`, if any:
exactly the lines with an `=` whose trimmed key passes the allow-list are
forwarded to the resolver by `processLine`. -/
def consumedPair (isValidKey : String → Bool) (line : String) : Option (String × String) :=
  if line = "" then none
  else
    let splitOption := goSplitN2 line
    let key := goTrim (splitOption.headD "")
    if splitOption.length == 2 && isValidKey key then
      some (key, goTrim (splitOption.getD 1 ""))
    else none

/-- All pairs a dump feeds to the resolver, in order. -/
def consumedPairs (isValidKey : String → Bool) (data : String) : List (String × String) :=
  (goLines data).filterMap (consumedPair isValidKey)

/-- Method `(com *CommonArgs) createTempNpmrc()`.  The external effects are passed
in as values: `fetchResult` models the `(data, err)` pair returned by
`npm.GetConfigList`, `removeErr` the result of `removeNpmrcIfExists`, and
`writeErr` the result of `ioutil.WriteFile`; the returned `Except` carries
the written file content on success.  Mirroring the source, the error
component of `fetchResult` is never consulted: the Go code assigns it to
`err` and immediately shadows it with the (always nil) error of
`prepareConfigData` before any check. -/
def createTempNpmrc (isValidKey : String → Bool) (com : CommonArgs)
    (fetchResult : String × Option String) (removeErr writeErr : Option String) :
    Except String String :=
  let data := fetchResult.1
  let configData := (prepareConfigData isValidKey com data).1
  match removeErr with
  | some e => .error e
  | none =>
    match writeErr with
    | some e => .error e
    | none => .ok configData

/-- The one-shot effect of a legacy pair on a still-unset resolver state,
read off the `only`/`production` branches of `setTypeRestriction`: `none`
means the pair causes no transition. -/
def legacyEffect (key value : String) : Option TypeRestriction :=
  if key = "only" then
    if goContains value "prod" then some .ProdOnly
    else if goContains value "dev" then some .DevOnly
    else none
  else if key = "production" then
    if goContains value "true" then some .ProdOnly else none
  else none

section Lemmas

theorem startsWithCL_append_self (sub suf : List Char) :
    startsWithCL sub (sub ++ suf) = true := by
  induction sub with
  | nil => rfl
  | cons a as ih => simp [startsWithCL, ih]

theorem containsCL_of_tail {l sub : List Char} (a : Char)
    (h : containsCL l sub = true) : containsCL (a :: l) sub = true := by
  simp [containsCL]
  exact Or.inr h

theorem containsCL_nil (l : List Char) : containsCL l [] = true := by
  cases l <;> simp [containsCL, startsWithCL]

theorem containsCL_append (pre sub suf : List Char) :
    containsCL (pre ++ sub ++ suf) sub = true := by
  induction pre with
  | nil =>
    cases sub with
    | nil => simpa using containsCL_nil suf
    | cons b bs =>
      simp only [List.nil_append, List.cons_append, containsCL]
      have := startsWithCL_append_self (b :: bs) suf
      simp only [List.cons_append] at this
      simp [this]
  | cons a as ih => exact containsCL_of_tail a ih

theorem string_data_mk (l : List Char) : (String.mk l).data = l := rfl

theorem goContains_sandwich (pre sub suf : String) :
    goContains (pre ++ sub ++ suf) sub = true := by
  have h : (pre ++ sub ++ suf).data = pre.data ++ sub.data ++ suf.data := by
    cases pre; cases sub; cases suf; rfl
  rw [goContains, h]
  exact containsCL_append pre.data sub.data suf.data

theorem setTypeRestriction_of_ne_omit {t : TypeRestriction} {key : String}
    (value : String) (ht : t ≠ .DefaultRestriction) (hk : key ≠ "omit") :
    setTypeRestriction t key value = t := by
  simp [setTypeRestriction, hk, ht]

theorem setTypeRestriction_ne_default {t : TypeRestriction} (key value : String)
    (ht : t ≠ .DefaultRestriction) :
    setTypeRestriction t key value ≠ .DefaultRestriction := by
  unfold setTypeRestriction
  split_ifs <;> simp_all

theorem foldl_setTypeRestriction_of_ne (pairs : List (String × String))
    {t : TypeRestriction} (ht : t ≠ .DefaultRestriction)
    (hno : ∀ p ∈ pairs, p.1 ≠ "omit") :
    pairs.foldl (fun t p => setTypeRestriction t p.1 p.2) t = t := by
  induction pairs with
  | nil => rfl
  | cons p rest ih =>
    rw [List.foldl_cons,
      setTypeRestriction_of_ne_omit p.2 ht (hno p (List.mem_cons_self p rest))]
    exact ih (fun q hq => hno q (List.mem_cons_of_mem p hq))

theorem legacyEffect_ne_default {key value : String} {r : TypeRestriction}
    (h : legacyEffect key value = some r) : r ≠ .DefaultRestriction := by
  unfold legacyEffect at h
  split_ifs at h <;> simp_all <;> (subst h; decide)

theorem setTypeRestriction_default_eq_legacyEffect {key : String} (value : String)
    (hk : key ≠ "omit") :
    setTypeRestriction .DefaultRestriction key value
      = (legacyEffect key value).getD .DefaultRestriction := by
  unfold setTypeRestriction legacyEffect
  split_ifs <;> simp_all

theorem foldl_setTypeRestriction_legacy (pairs : List (String × String))
    (hno : ∀ p ∈ pairs, p.1 ≠ "omit") :
    pairs.foldl (fun t p => setTypeRestriction t p.1 p.2) .DefaultRestriction
      = (pairs.findSome? (fun p => legacyEffect p.1 p.2)).getD .DefaultRestriction := by
  induction pairs with
  | nil => rfl
  | cons p rest ih =>
    have hp : p.1 ≠ "omit" := hno p (List.mem_cons_self p rest)
    have hrest : ∀ q ∈ rest, q.1 ≠ "omit" := fun q hq => hno q (List.mem_cons_of_mem p hq)
    rw [List.foldl_cons, setTypeRestriction_default_eq_legacyEffect p.2 hp,
      List.findSome?_cons]
    cases he : legacyEffect p.1 p.2 with
    | none => simpa [he] using ih hrest
    | some r =>
      simp only [he, Option.getD_some]
      exact foldl_setTypeRestriction_of_ne rest (legacyEffect_ne_default he) hrest

theorem processLine_typeRestriction (k : String → Bool) (reg : String)
    (st : PrepareState) (line : String) :
    (processLine k reg st line).typeRestriction
      = (match consumedPair k line with
        | none => st.typeRestriction
        | some p => setTypeRestriction st.typeRestriction p.1 p.2) := by
  by_cases h1 : line = ""
  · simp [processLine, consumedPair, h1]
  · by_cases h2 : (goSplitN2 line).length = 2
        ∧ k (goTrim ((goSplitN2 line).head?.getD "")) = true
    · simp [processLine, consumedPair, h1, h2]
    · by_cases h3 : goStartsWith ((goSplitN2 line).head?.getD "") "@" = true
      · simp [processLine, consumedPair, h1, h2, h3]
      · simp [processLine, consumedPair, h1, h2, h3]

theorem foldl_processLine_typeRestriction (k : String → Bool) (reg : String)
    (lines : List String) (st : PrepareState) :
    ((lines.foldl (processLine k reg) st).typeRestriction)
      = (lines.filterMap (consumedPair k)).foldl
          (fun t p => setTypeRestriction t p.1 p.2) st.typeRestriction := by
  induction lines generalizing st with
  | nil => rfl
  | cons line rest ih =>
    rw [List.foldl_cons, List.filterMap_cons, ih]
    cases hc : consumedPair k line with
    | none =>
      have h := processLine_typeRestriction k reg st line
      rw [hc] at h
      simp [h]
    | some p =>
      have h := processLine_typeRestriction k reg st line
      rw [hc] at h
      simp [h]

theorem prepareConfigData_typeRestriction (k : String → Bool) (com : CommonArgs)
    (data : String) :
    (prepareConfigData k com data).2
      = (consumedPairs k data).foldl
          (fun t p => setTypeRestriction t p.1 p.2) com.typeRestriction := by
  have h := foldl_processLine_typeRestriction k com.registry (goLines data)
    { filteredConf := [], typeRestriction := com.typeRestriction }
  simpa [prepareConfigData, consumedPairs] using h

theorem foldl_processLine_insert (k : String → Bool) (reg : String)
    (pre post : List String) (line : String)
    (hline : ∀ st, processLine k reg st line = st) (st : PrepareState) :
    (pre ++ line :: post).foldl (processLine k reg) st
      = (pre ++ post).foldl (processLine k reg) st := by
  simp [List.foldl_append, List.foldl_cons, hline]

theorem prepareConfigData_insert_noop (k : String → Bool) (com : CommonArgs)
    {line data data' : String} {pre post : List String}
    (hnoop : ∀ st, processLine k com.registry st line = st)
    (hdata : goLines data = pre ++ line :: post)
    (hdata' : goLines data' = pre ++ post) :
    prepareConfigData k com data = prepareConfigData k com data' := by
  have h : (goLines data).foldl (processLine k com.registry)
        { filteredConf := [], typeRestriction := com.typeRestriction }
      = (goLines data').foldl (processLine k com.registry)
        { filteredConf := [], typeRestriction := com.typeRestriction } := by
    rw [hdata, hdata']
    exact foldl_processLine_insert k com.registry pre post line hnoop _
  simp [prepareConfigData, h]

theorem prepareConfigData_insert_restriction (k : String → Bool) (com : CommonArgs)
    {line data data' : String} {pre post : List String}
    (hcp : consumedPair k line = none)
    (hdata : goLines data = pre ++ line :: post)
    (hdata' : goLines data' = pre ++ post) :
    (prepareConfigData k com data).2 = (prepareConfigData k com data').2 := by
  rw [prepareConfigData_typeRestriction, prepareConfigData_typeRestriction,
    consumedPairs, consumedPairs, hdata, hdata']
  rw [List.filterMap_append, List.filterMap_append, List.filterMap_cons, hcp]

theorem stringExt {s t : String} (h : s.data = t.data) : s = t := by
  cases s
  cases t
  exact congrArg String.mk h

theorem string_data_append (s t : String) : (s ++ t).data = s.data ++ t.data := by
  cases s
  cases t
  rfl

theorem string_data_empty : ("" : String).data = [] := rfl

theorem string_append_empty (s : String) : s ++ "" = s :=
  stringExt (by rw [string_data_append, string_data_empty, List.append_nil])

theorem string_empty_append (s : String) : "" ++ s = s :=
  stringExt (by rw [string_data_append, string_data_empty, List.nil_append])

theorem string_append_assoc (a b c : String) : (a ++ b) ++ c = a ++ (b ++ c) :=
  stringExt (by simp [string_data_append, List.append_assoc])

theorem goJoin_append (xs ys : List String) :
    goJoin (xs ++ ys) = goJoin xs ++ goJoin ys := by
  induction xs with
  | nil => simp [goJoin, string_empty_append]
  | cons a as ih => simp [goJoin, ih, string_append_assoc]

theorem goSplitN2_empty : goSplitN2 "" = [""] := rfl

theorem line_ne_empty_of_goSplitN2_pair {line leftPart rightPart : String}
    (hsplit : goSplitN2 line = [leftPart, rightPart]) : line ≠ "" := by
  intro h
  rw [h, goSplitN2_empty] at hsplit
  simp at hsplit

theorem processLine_not_recognized (k : String → Bool) (reg : String)
    {line leftPart rightPart : String}
    (hsplit : goSplitN2 line = [leftPart, rightPart])
    (hkey : k (goTrim leftPart) = false) (st : PrepareState) :
    processLine k reg st line
      = if goStartsWith leftPart "@" = true then
          { st with filteredConf := st.filteredConf ++ [leftPart, " = ", reg, "\n"] }
        else st := by
  have hne := line_ne_empty_of_goSplitN2_pair hsplit
  simp [processLine, hne, hsplit, hkey]

theorem consumedPair_none_of_not_recognized {k : String → Bool}
    {line leftPart rightPart : String}
    (hsplit : goSplitN2 line = [leftPart, rightPart])
    (hkey : k (goTrim leftPart) = false) :
    consumedPair k line = none := by
  have hne := line_ne_empty_of_goSplitN2_pair hsplit
  simp [consumedPair, hne, hsplit, hkey]

theorem processLine_no_equals (k : String → Bool) (reg : String) {line : String}
    (hne : line ≠ "") (hsplit : splitN2CL '=' line.data = none) (st : PrepareState) :
    processLine k reg st line
      = if goStartsWith line "@" = true then
          { st with filteredConf := st.filteredConf ++ [line, " = ", reg, "\n"] }
        else st := by
  have hs : goSplitN2 line = [line] := by simp [goSplitN2, hsplit]
  simp [processLine, hne, hs]

theorem consumedPair_none_of_no_equals {k : String → Bool} {line : String}
    (hne : line ≠ "") (hsplit : splitN2CL '=' line.data = none) :
    consumedPair k line = none := by
  have hs : goSplitN2 line = [line] := by simp [goSplitN2, hsplit]
  simp [consumedPair, hne, hs]

end Lemmas

/-- C10: once the resolver's state has left `DefaultRestriction` (the spec's
`Unset`), any pair whose key is not `omit` leaves it unchanged, and no pair
whatsoever can bring it back to `DefaultRestriction`. -/
theorem setTypeRestriction_frozen_after_set (t : TypeRestriction) (key value : String) :
    (t ≠ .DefaultRestriction → key ≠ "omit" → setTypeRestriction t key value = t)
    ∧ (t ≠ .DefaultRestriction → setTypeRestriction t key value ≠ .DefaultRestriction) :=
  ⟨fun ht hk => setTypeRestriction_of_ne_omit value ht hk,
   fun ht => setTypeRestriction_ne_default key value ht⟩

/-- Witness for C10 at a concrete state and pair. -/
theorem setTypeRestriction_frozen_after_set_witness :
    setTypeRestriction .ProdOnly "only" "dev" = .ProdOnly
    ∧ setTypeRestriction .All "production" "true" ≠ .DefaultRestriction :=
  ⟨(setTypeRestriction_frozen_after_set .ProdOnly "only" "dev").1 (by decide) (by decide),
   (setTypeRestriction_frozen_after_set .All "production" "true").2 (by decide)⟩

/-- C3: when the restore function succeeds, `restoreNpmrcAndError` returns
exactly the original error; when the restore function also fails, the single
combined error it returns names both the restore failure and the original
failure (each message occurs in the combined one), and it is never just the
restore error. -/
theorem restoreNpmrcAndError_spec (restoreErr err : String) :
    restoreNpmrcAndError none err = err
    ∧ goContains (restoreNpmrcAndError (some restoreErr) err) restoreErr = true
    ∧ goContains (restoreNpmrcAndError (some restoreErr) err) err = true
    ∧ restoreNpmrcAndError (some restoreErr) err ≠ restoreErr := by
  refine ⟨rfl, ?_, ?_, ?_⟩
  · have h : restoreNpmrcAndError (some restoreErr) err
        = "Two errors occurred:\n " ++ restoreErr ++ ("\n " ++ err) := by
      simp [restoreNpmrcAndError, String.append_assoc]
    rw [h]
    exact goContains_sandwich "Two errors occurred:\n " restoreErr ("\n " ++ err)
  · have h : restoreNpmrcAndError (some restoreErr) err
        = ("Two errors occurred:\n " ++ restoreErr ++ "\n ") ++ err ++ "" := by
      simp [restoreNpmrcAndError, String.append_assoc]
    rw [h]
    exact goContains_sandwich ("Two errors occurred:\n " ++ restoreErr ++ "\n ") err ""
  · intro hcontra
    have hlen : (restoreNpmrcAndError (some restoreErr) err).data.length
        = restoreErr.data.length + err.data.length + 24 := by
      cases restoreErr with
      | mk rl =>
        cases err with
        | mk el =>
          simp [restoreNpmrcAndError, String.append, string_data_mk]
          omega
    rw [hcontra] at hlen
    omega

/-- C1: whenever a configuration dump feeds an `omit` pair to the resolver
(and no later `omit` pair follows it), the final `typeRestriction` computed
by `prepareConfigData` is exactly the policy implied by that `omit` pair's
value — `ProdOnly` when the value contains `"dev"`, `All` otherwise —
regardless of any `only`/`production` pairs observed earlier (`pre` is
arbitrary) and of the state already set when the pair is consumed
(`com.typeRestriction` is arbitrary). -/
theorem prepareConfigData_omit_authoritative
    (k : String → Bool) (com : CommonArgs) (data v : String)
    (pre post : List (String × String))
    (hpairs : consumedPairs k data = pre ++ ("omit", v) :: post)
    (hlast : ∀ p ∈ post, p.1 ≠ "omit") :
    (prepareConfigData k com data).2
      = if goContains v "dev" then TypeRestriction.ProdOnly else TypeRestriction.All := by
  rw [prepareConfigData_typeRestriction, hpairs, List.foldl_append, List.foldl_cons]
  have homit : ∀ t : TypeRestriction,
      setTypeRestriction t "omit" v
        = if goContains v "dev" then TypeRestriction.ProdOnly else TypeRestriction.All := by
    intro t
    simp [setTypeRestriction]
  rw [homit]
  apply foldl_setTypeRestriction_of_ne post ?_ hlast
  split <;> decide

/-- Witness for C1: an `omit` pair with a non-dev value overrides a
`DevOnly` restriction already set by an earlier `only = dev` pair. -/
theorem prepareConfigData_omit_authoritative_witness :
    (prepareConfigData (fun _ => true) ⟨true, "R", "A", .DefaultRestriction⟩
      "only = dev\nomit = abc").2 = TypeRestriction.All := by
  have h := prepareConfigData_omit_authoritative (fun _ => true)
    ⟨true, "R", "A", .DefaultRestriction⟩ "only = dev\nomit = abc" "abc"
    [("only", "dev")] [] (by decide) (by simp)
  rw [h]
  decide

/-- C2: on a dump that feeds no `omit` pair to the resolver, starting from
the default restriction, the final `typeRestriction` is determined by the
first effective legacy pair — the first `only` pair whose value contains
`"prod"` (giving `ProdOnly`) or `"dev"` (giving `DevOnly`), or the first
`production` pair whose value contains `"true"` (giving `ProdOnly`) — and
no later `only`/`production` pair changes it once set. -/
theorem prepareConfigData_legacy_first_wins
    (k : String → Bool) (com : CommonArgs) (data : String)
    (hcom : com.typeRestriction = .DefaultRestriction)
    (hnoomit : ∀ p ∈ consumedPairs k data, p.1 ≠ "omit") :
    (prepareConfigData k com data).2
      = ((consumedPairs k data).findSome?
          (fun p => legacyEffect p.1 p.2)).getD .DefaultRestriction := by
  rw [prepareConfigData_typeRestriction, hcom]
  exact foldl_setTypeRestriction_legacy (consumedPairs k data) hnoomit

/-- Witness for C2: `only = dev` is observed first and a later
`only = prod` pair does not override the `DevOnly` it set. -/
theorem prepareConfigData_legacy_first_wins_witness :
    (prepareConfigData (fun _ => true) ⟨true, "R", "A", .DefaultRestriction⟩
      "only = dev\nonly = prod").2 = TypeRestriction.DevOnly := by
  have h := prepareConfigData_legacy_first_wins (fun _ => true)
    ⟨true, "R", "A", .DefaultRestriction⟩ "only = dev\nonly = prod" rfl (by decide)
  rw [h]
  decide

/-- C4 (code bug): when the external config-list fetch fails,
`createTempNpmrc` does not fail — the fetch error is assigned to `err` and
immediately shadowed by `prepareConfigData`'s (always nil) error before any
check, so the function proceeds and returns the override content built from
the empty dump instead of surfacing the fetch failure. -/
theorem createTempNpmrc_drops_fetch_error :
    createTempNpmrc (fun _ => false)
        ⟨true, "https://auth", "//auth.line", .DefaultRestriction⟩
        ("", some "npm config ls: exit status 1") none none
      = Except.ok "json = true\nregistry = https://auth\n//auth.line" := by
  rfl

/-- Counterexample to C5 as stated: a scoped-registry line whose trimmed key
IS accepted by the allow-list predicate is not rewritten to the
authenticated registry — it goes through the recognized-key branch and is
emitted verbatim.  Here the allow-list accepts `"@s"`, the input line is
`@s = x`, and the output keeps `@s = x` and nowhere assigns the registry
`REG` to `@s`. -/
theorem scoped_line_not_always_rewritten :
    (prepareConfigData (fun s => s == "@s")
        ⟨true, "REG", "AUTH", .DefaultRestriction⟩ "@s = x").1
      = "@s = x\njson = true\nregistry = REG\nAUTH"
    ∧ goContains (prepareConfigData (fun s => s == "@s")
        ⟨true, "REG", "AUTH", .DefaultRestriction⟩ "@s = x").1 "@s = REG" = false := by
  constructor
  · rfl
  · decide

/-- C5 (amended): a line with an `=` whose trimmed key the allow-list
predicate rejects is dropped when its left part does not begin with `@`
(removing it from the dump changes neither the output nor the final
restriction), and when its left part does begin with `@` it is emitted
rewritten as that left part assigned the authenticated registry URL — still
without affecting the final restriction. -/
theorem prepareConfigData_filters_unrecognized
    (k : String → Bool) (com : CommonArgs)
    (line leftPart rightPart data data' : String) (pre post : List String)
    (hsplit : goSplitN2 line = [leftPart, rightPart])
    (hkey : k (goTrim leftPart) = false)
    (hdata : goLines data = pre ++ line :: post)
    (hdata' : goLines data' = pre ++ post) :
    (goStartsWith leftPart "@" = false →
      prepareConfigData k com data = prepareConfigData k com data')
    ∧ (goStartsWith leftPart "@" = true →
      (∀ st, processLine k com.registry st line
        = { st with filteredConf := st.filteredConf ++ [leftPart, " = ", com.registry, "\n"] })
      ∧ (prepareConfigData k com data).2 = (prepareConfigData k com data').2) := by
  constructor
  · intro hat
    apply prepareConfigData_insert_noop k com ?_ hdata hdata'
    intro st
    rw [processLine_not_recognized k com.registry hsplit hkey st, if_neg]
    simp [hat]
  · intro hat
    constructor
    · intro st
      rw [processLine_not_recognized k com.registry hsplit hkey st, if_pos hat]
    · exact prepareConfigData_insert_restriction k com
        (consumedPair_none_of_not_recognized hsplit hkey) hdata hdata'

/-- Witness for C5 at concrete inputs: dropping the unrecognized
`cache = /home/x` line leaves the result unchanged, and the scoped line
`@ns = old` is emitted as `@ns ` ` = ` `REG`. -/
theorem prepareConfigData_filters_unrecognized_witness :
    prepareConfigData (fun _ => false) ⟨true, "REG", "AUTH", .DefaultRestriction⟩
        "a\ncache = /home/x\nb"
      = prepareConfigData (fun _ => false) ⟨true, "REG", "AUTH", .DefaultRestriction⟩ "a\nb"
    ∧ processLine (fun _ => false) "REG" ⟨[], .DefaultRestriction⟩ "@ns = old"
      = ⟨["@ns ", " = ", "REG", "\n"], .DefaultRestriction⟩ := by
  constructor
  · exact (prepareConfigData_filters_unrecognized (fun _ => false)
      ⟨true, "REG", "AUTH", .DefaultRestriction⟩ "cache = /home/x" "cache " " /home/x"
      "a\ncache = /home/x\nb" "a\nb" ["a"] ["b"]
      (by decide) (by decide) (by decide) (by decide)).1 (by decide)
  · exact ((prepareConfigData_filters_unrecognized (fun _ => false)
      ⟨true, "REG", "AUTH", .DefaultRestriction⟩ "@ns = old" "@ns " " old"
      "@ns = old\n" "" [] [""]
      (by decide) (by decide) (by decide) (by decide)).2 (by decide)).1
      ⟨[], .DefaultRestriction⟩

/-- Counterexample to C6 as stated: the non-empty line `@foo` holds no `=`
at all, yet it is not a no-op — `prepareConfigData` emits it as a
scoped-registry override, so the output differs from the empty dump's
output. -/
theorem no_equals_at_line_not_noop :
    (prepareConfigData (fun _ => false)
        ⟨true, "REG", "AUTH", .DefaultRestriction⟩ "@foo").1
      = "@foo = REG\njson = true\nregistry = REG\nAUTH"
    ∧ (prepareConfigData (fun _ => false)
        ⟨true, "REG", "AUTH", .DefaultRestriction⟩ "@foo").1
      ≠ (prepareConfigData (fun _ => false)
        ⟨true, "REG", "AUTH", .DefaultRestriction⟩ "").1 := by
  constructor
  · rfl
  · decide

/-- C6 (amended): a non-empty line containing no `=` is a no-op — removing
it changes neither output nor restriction — provided it does not begin with
`@`; a no-`=` line beginning with `@` is instead emitted as a
scoped-registry override (the whole line, ` = `, then the registry URL),
while still never changing the final TypeRestriction and causing no error
(the model is total). -/
theorem prepareConfigData_no_equals_line
    (k : String → Bool) (com : CommonArgs)
    (line data data' : String) (pre post : List String)
    (hne : line ≠ "")
    (hsplit : splitN2CL '=' line.data = none)
    (hdata : goLines data = pre ++ line :: post)
    (hdata' : goLines data' = pre ++ post) :
    (goStartsWith line "@" = false →
      prepareConfigData k com data = prepareConfigData k com data')
    ∧ (goStartsWith line "@" = true →
      (∀ st, processLine k com.registry st line
        = { st with filteredConf := st.filteredConf ++ [line, " = ", com.registry, "\n"] })
      ∧ (prepareConfigData k com data).2 = (prepareConfigData k com data').2) := by
  constructor
  · intro hat
    apply prepareConfigData_insert_noop k com ?_ hdata hdata'
    intro st
    rw [processLine_no_equals k com.registry hne hsplit st, if_neg]
    simp [hat]
  · intro hat
    constructor
    · intro st
      rw [processLine_no_equals k com.registry hne hsplit st, if_pos hat]
    · exact prepareConfigData_insert_restriction k com
        (consumedPair_none_of_no_equals hne hsplit) hdata hdata'

/-- Witness for C6 at concrete inputs: the no-`=` line `junk` is a no-op,
and the no-`=` line `@foo` is emitted as `@foo ` `=` ` REG`. -/
theorem prepareConfigData_no_equals_line_witness :
    prepareConfigData (fun _ => false) ⟨true, "REG", "AUTH", .DefaultRestriction⟩
        "a = 1\njunk\nb = 2"
      = prepareConfigData (fun _ => false) ⟨true, "REG", "AUTH", .DefaultRestriction⟩
        "a = 1\nb = 2"
    ∧ processLine (fun _ => false) "REG" ⟨[], .DefaultRestriction⟩ "@foo"
      = ⟨["@foo", " = ", "REG", "\n"], .DefaultRestriction⟩ := by
  constructor
  · exact (prepareConfigData_no_equals_line (fun _ => false)
      ⟨true, "REG", "AUTH", .DefaultRestriction⟩ "junk"
      "a = 1\njunk\nb = 2" "a = 1\nb = 2" ["a = 1"] ["b = 2"]
      (by decide) (by decide) (by decide) (by decide)).1 (by decide)
  · exact ((prepareConfigData_no_equals_line (fun _ => false)
      ⟨true, "REG", "AUTH", .DefaultRestriction⟩ "@foo"
      "@foo\n" "" [] [""]
      (by decide) (by decide) (by decide) (by decide)).2 (by decide)).1
      ⟨[], .DefaultRestriction⟩

/-- C7: for every input dump, flag, registry and credential, the output of
`prepareConfigData` is exactly the joined input-derived fragments followed by
the three synthesized entries in fixed order: the `json = `-flag line, the
`registry = `-URL line, and the credential string last. -/
theorem prepareConfigData_appends_synthesized_suffix
    (k : String → Bool) (com : CommonArgs) (data : String) :
    (prepareConfigData k com data).1
      = goJoin ((goLines data).foldl (processLine k com.registry)
          { filteredConf := [], typeRestriction := com.typeRestriction }).filteredConf
        ++ ("json = " ++ strconvFormatBool com.jsonOutput ++ "\n"
            ++ "registry = " ++ com.registry ++ "\n" ++ com.npmAuth) := by
  apply stringExt
  simp [prepareConfigData, goJoin_append, goJoin, string_data_append, string_data_empty,
    List.append_assoc]

/-- Counterexample to C8 as stated: on the spec's concrete scenario the
scoped line is emitted from the UNtrimmed left part `"@myscope "`, so the
output line carries two spaces before the `=`; the claimed ending (with the
single-space line `@myscope = https://auth`) is therefore not a suffix of
the actual output. -/
theorem scenario_single_space_ending_false :
    goEndsWith (prepareConfigData (fun s => s == "omit" || s == "only" || s == "registry")
        ⟨true, "https://auth", "//auth.line", .DefaultRestriction⟩
        "omit = [dev]\nonly = production\nregistry = https://old\n@myscope = https://old2").1
      "@myscope = https://auth\njson = true\nregistry = https://auth\n//auth.line" = false := by
  decide

/-- C8 (amended): on the dump
`omit = [dev]\nonly = production\nregistry = https://old\n@myscope = https://old2`,
with authenticated registry `https://auth`, credential `//auth.line` and an
allow-list recognizing `omit`, `only` and `registry`, the result is
`ProdOnly` and the output ends with `@myscope  = https://auth` (two spaces:
the untrimmed left part `"@myscope "` is emitted), then `json = true`, then
`registry = https://auth`, then `//auth.line`, with `only = production`
still present. -/
theorem prepareConfigData_scenario :
    (prepareConfigData (fun s => s == "omit" || s == "only" || s == "registry")
        ⟨true, "https://auth", "//auth.line", .DefaultRestriction⟩
        "omit = [dev]\nonly = production\nregistry = https://old\n@myscope = https://old2")
      = ("omit = dev\nonly = production\nregistry = https://old\n@myscope  = https://auth\njson = true\nregistry = https://auth\n//auth.line",
         .ProdOnly)
    ∧ goEndsWith (prepareConfigData (fun s => s == "omit" || s == "only" || s == "registry")
        ⟨true, "https://auth", "//auth.line", .DefaultRestriction⟩
        "omit = [dev]\nonly = production\nregistry = https://old\n@myscope = https://old2").1
      "@myscope  = https://auth\njson = true\nregistry = https://auth\n//auth.line" = true
    ∧ goContains (prepareConfigData (fun s => s == "omit" || s == "only" || s == "registry")
        ⟨true, "https://auth", "//auth.line", .DefaultRestriction⟩
        "omit = [dev]\nonly = production\nregistry = https://old\n@myscope = https://old2").1
      "only = production\n" = true := by
  refine ⟨by rfl, by decide, by decide⟩

/-- C9: on the empty dump, `prepareConfigData` returns exactly the three
synthesized entries — the `json` flag line, the registry line, and the
credential string — in that fixed order and nothing else, and the
`typeRestriction` stays at its default value. -/
theorem prepareConfigData_empty_input (k : String → Bool) (j : Bool) (r a : String) :
    prepareConfigData k ⟨j, r, a, .DefaultRestriction⟩ ""
      = ("json = " ++ strconvFormatBool j ++ "\n" ++ "registry = " ++ r ++ "\n" ++ a,
         .DefaultRestriction) := by
  have h : goLines "" = [""] := rfl
  have h2 : (prepareConfigData k ⟨j, r, a, .DefaultRestriction⟩ "").2
      = .DefaultRestriction := by
    simp [prepareConfigData, h, processLine]
  have h1 : (prepareConfigData k ⟨j, r, a, .DefaultRestriction⟩ "").1
      = "json = " ++ strconvFormatBool j ++ "\n" ++ "registry = " ++ r ++ "\n" ++ a := by
    apply stringExt
    simp [prepareConfigData, h, processLine, goJoin, string_data_append, string_data_empty,
      List.append_assoc]
  exact Prod.ext h1 h2
